import Mathlib

/-!
Shallow embedding of the ccsync synchronization engine: the message grouper
(src/parsers/claude.ts), the diff engine and sync coordinator (src/sync.ts),
and the persisted state store with its advisory file lock
(src/state/sync-state.ts).  Pure functions are translated directly; the
file-system and network effects are made explicit (the lock file as part of a
small world state, the publisher as a record of fallible call results).
-/

namespace Ccsync

/-- Content of one log message: either a plain text string or a structured
block array (tool calls / tool results).  Mirrors the TypeScript union
`string | any[]` of `ClaudeMessage.message.content` (src/types.ts). -/
inductive MessageContent where
  | text (s : String)
  | blocks
deriving DecidableEq, Repr

/-- One log entry, restricted to the fields the synchronization engine reads:
`uuid`, `type` (a string: "user", "assistant", or at runtime also "summary"),
and `message.content` (flattened here to `content`).  Mirrors `ClaudeMessage`
(src/types.ts). -/
structure ClaudeMessage where
  uuid : String
  type : String
  content : MessageContent
deriving DecidableEq, Repr

/-- Boundary test of `groupMessagesByUserInteraction` (src/parsers/claude.ts,
line 499): `message.type === 'user' && typeof message.message.content ===
'string'`. -/
def isUserText (m : ClaudeMessage) : Bool :=
  m.type == "user" && (match m.content with | .text _ => true | .blocks => false)

/-- Summary test of `groupMessagesByUserInteraction` (src/parsers/claude.ts,
line 494): `(message as any).type === 'summary'`. -/
def isSummary (m : ClaudeMessage) : Bool :=
  m.type == "summary"

/-- Loop body of `groupMessagesByUserInteraction` (src/parsers/claude.ts,
lines 492-515).  `groups` is the accumulated output and `current` the
currently open group; the final group is flushed when the input is exhausted,
exactly when non-empty. -/
def groupGo : List ClaudeMessage → List (List ClaudeMessage) → List ClaudeMessage →
    List (List ClaudeMessage)
  | [], groups, current => if current.isEmpty then groups else groups ++ [current]
  | m :: rest, groups, current =>
    if isSummary m then
      groupGo rest groups current
    else if isUserText m then
      if current.isEmpty then groupGo rest groups [m]
      else groupGo rest (groups ++ [current]) [m]
    else
      groupGo rest groups (current ++ [m])

/-- Embedding of `groupMessagesByUserInteraction` (src/parsers/claude.ts,
lines 488-518): segments an ordered message list into interaction groups. -/
def groupMessagesByUserInteraction (messages : List ClaudeMessage) : List (List ClaudeMessage) :=
  groupGo messages [] []

/-- Specification-side grouping, written from the spec rule (spec 4.1): a new
group starts exactly at each element satisfying `p`; every other element
appends to the currently open group, and the run preceding the first boundary
forms a leading anchor-less group. -/
def specGroups (p : α → Bool) (l : List α) : List (List α) :=
  match l with
  | [] => []
  | a :: rest =>
    (a :: rest.takeWhile (fun x => !p x)) :: specGroups p (rest.dropWhile (fun x => !p x))
termination_by l.length
decreasing_by
  simp_wf
  have h : (List.dropWhile (fun x => !p x) rest).Sublist rest := List.dropWhile_sublist _
  have h2 := h.length_le
  omega

/-- Persisted record of one previously synced group; mirrors `SyncedGroup`
(src/state/sync-state.ts, lines 6-11). -/
structure SyncedGroup where
  traceId : String
  userMessageUuid : String
  lastMessageUuid : String
  messageCount : Nat
deriving DecidableEq, Repr

/-- Action emitted by the diff engine; mirrors `GroupAction` (src/sync.ts,
lines 30-34): a string discriminator, the group, and the stored trace id on
updates. -/
structure GroupAction where
  action : String
  group : List ClaudeMessage
  traceId : Option String
deriving DecidableEq, Repr

/-- Embedding of `analyzeGroupChanges` (src/sync.ts, lines 36-60): for each
current group, look up the prior record whose `userMessageUuid` equals the
group's first message uuid; emit a create when absent, an update when the last
uuid or the count differs, nothing when both match.  Empty groups are skipped
(`if (group.length === 0) continue`). -/
def analyzeGroupChanges : List (List ClaudeMessage) → List SyncedGroup → List GroupAction
  | [], _ => []
  | [] :: rest, syncedGroups => analyzeGroupChanges rest syncedGroups
  | (userMessage :: tail) :: rest, syncedGroups =>
    let lastMessage := tail.getLastD userMessage
    match syncedGroups.find? (fun sg => sg.userMessageUuid == userMessage.uuid) with
    | none =>
      ⟨"create", userMessage :: tail, none⟩ :: analyzeGroupChanges rest syncedGroups
    | some syncedGroup =>
      if syncedGroup.lastMessageUuid != lastMessage.uuid ||
          syncedGroup.messageCount != (userMessage :: tail).length then
        ⟨"update", userMessage :: tail, some syncedGroup.traceId⟩ ::
          analyzeGroupChanges rest syncedGroups
      else
        analyzeGroupChanges rest syncedGroups

/-- Specification-side classification of a single current group against the
prior records, written from the spec (spec 4.4): no prior group with this
anchor id (the first message's id) gives a Create; a prior group whose
`lastMessageId` or `messageCount` differs gives an Update carrying the prior
remote id; a full match gives no action. -/
def diffSpecAction (syncedGroups : List SyncedGroup) : List ClaudeMessage → Option GroupAction
  | [] => none
  | userMessage :: tail =>
    match syncedGroups.find? (fun sg => sg.userMessageUuid == userMessage.uuid) with
    | none => some ⟨"create", userMessage :: tail, none⟩
    | some sg =>
      if sg.lastMessageUuid != (tail.getLastD userMessage).uuid ||
          sg.messageCount != (userMessage :: tail).length then
        some ⟨"update", userMessage :: tail, some sg.traceId⟩
      else
        none

/-- Anchor id of a group: the uuid of its first message (spec glossary), with
a default for the empty group that never arises in practice. -/
def anchorUuid : List ClaudeMessage → String
  | [] => ""
  | m :: _ => m.uuid

/-- Record pushed into the synced-group list after a create or update
(src/sync.ts, lines 217-222 and 258-263): the assigned trace id, the group's
first message uuid, its last message uuid, and its length. -/
def syncedRecordOf (traceId : String) : List ClaudeMessage → SyncedGroup
  | [] => ⟨traceId, "", "", 0⟩
  | m :: tail => ⟨traceId, m.uuid, (tail.getLastD m).uuid, (m :: tail).length⟩

/-- Synced-group records stored after a sync that published every group,
each with the trace id assigned by `assign` (src/sync.ts, lines 217-222). -/
def recordsAfterSync (assign : List ClaudeMessage → String) (groups : List (List ClaudeMessage)) :
    List SyncedGroup :=
  groups.map (fun g => syncedRecordOf (assign g) g)

/-- Embedding of the skip-check and stored-group selection of `syncSession`
(src/sync.ts, lines 109-147).  `needsSyncAns` is the answer of the
fingerprint-based `needsSync` check, `stored` the synced groups recorded in
the state file for this session.  Without force, a negative check returns the
empty result (`none`); otherwise the diff runs against the stored groups.
With force the whole block is skipped and `existingSyncedGroups` keeps its
initializer `[]`, so the diff runs against the empty list.  (The catch branch
that degrades a state-read error to an empty stored list is not modelled.) -/
def syncPlan (force needsSyncAns : Bool) (stored : List SyncedGroup)
    (currentGroups : List (List ClaudeMessage)) : Option (List GroupAction) :=
  if !force then
    if !needsSyncAns then none
    else some (analyzeGroupChanges currentGroups stored)
  else
    some (analyzeGroupChanges currentGroups [])

/-- Outcome of the critical-section operation passed to `withLock`: a result,
or a thrown error carrying its `error.code` string. -/
inductive OpOutcome (α : Type) where
  | ok (a : α)
  | raise (code : String)
deriving DecidableEq, Repr

/-- Result of a `withLock` run: the operation's value, a lock timeout after
exhausting the retries, or a propagated operation error. -/
inductive LockOutcome (α : Type) where
  | ok (a : α)
  | lockTimeout
  | opError (code : String)
deriving DecidableEq, Repr

/-- File-system state visible to the lock manager: the mtime of the lock file
when it exists, and the current clock, both in milliseconds. -/
structure LockWorld where
  lockMtime : Option Nat
  now : Nat
deriving DecidableEq, Repr

/-- Staleness threshold `lockTimeout` (src/state/sync-state.ts, line 39). -/
def lockTimeoutMs : Nat := 30000

/-- Retry budget `maxRetries` (src/state/sync-state.ts, line 40). -/
def maxRetries : Nat := 10

/-- Embedding of `cleanStaleLocks` (src/state/sync-state.ts, lines 105-126):
remove the lock file when its age exceeds the staleness threshold. -/
def cleanStaleLocks (w : LockWorld) : LockWorld :=
  match w.lockMtime with
  | none => w
  | some m => if w.now - m > lockTimeoutMs then { w with lockMtime := none } else w

/-- Embedding of the `withLock` retry loop (src/state/sync-state.ts, lines
60-103).  Each iteration cleans stale locks, then attempts a create-only open,
which fails with EEXIST exactly when the lock file exists.  On success the
lock file is written with the current time and the operation runs: an `ok`
result closes and unlinks the lock; a raised error only closes the descriptor
(the source has no unlink on this path), retrying on EEXIST codes and
rethrowing anything else.  Each EEXIST failure increments the attempts
counter, sleeps `min(100 * 2 ** attempts, 2000)` ms (advancing the clock),
and retries while `attempts < maxRetries`; exhaustion throws the lock-timeout
error.  Returns the outcome, the list of backoff delays slept, and the final
file-system state. -/
def withLockGo {α : Type} (attempts : Nat) (w : LockWorld) (op : OpOutcome α) :
    LockOutcome α × List Nat × LockWorld :=
  if _h : attempts < maxRetries then
    let w1 := cleanStaleLocks w
    match w1.lockMtime with
    | some _ =>
      let a := attempts + 1
      let d := min (100 * 2 ^ a) 2000
      let r := withLockGo a { w1 with now := w1.now + d } op
      (r.1, d :: r.2.1, r.2.2)
    | none =>
      let w2 : LockWorld := { lockMtime := some w1.now, now := w1.now }
      match op with
      | .ok a => (.ok a, [], { w2 with lockMtime := none })
      | .raise code =>
        if code == "EEXIST" then
          let a := attempts + 1
          let d := min (100 * 2 ^ a) 2000
          let r := withLockGo a { w2 with now := w2.now + d } op
          (r.1, d :: r.2.1, r.2.2)
        else
          (.opError code, [], w2)
  else
    (.lockTimeout, [], w)
termination_by maxRetries - attempts
decreasing_by
  all_goals omega

/-- Embedding of `withLock` (src/state/sync-state.ts, lines 60-103): the retry
loop started with a zero attempts counter. -/
def withLock {α : Type} (w : LockWorld) (op : OpOutcome α) :
    LockOutcome α × List Nat × LockWorld :=
  withLockGo 0 w op

/-- Per-session persisted record; mirrors `SessionSyncState`
(src/state/sync-state.ts, lines 13-20). -/
structure SessionSyncState where
  sessionId : String
  lastSyncTime : String
  fingerprint : String
  messageCount : Nat
  lastMessageTime : String
  syncedGroups : List SyncedGroup
deriving DecidableEq, Repr

/-- Whole persisted store; mirrors `SyncStateData` (src/state/sync-state.ts,
lines 22-25), with the sessions map as an association list. -/
structure SyncStateData where
  sessions : List (String × SessionSyncState)
  lastUpdated : String
deriving DecidableEq, Repr

/-- Fresh empty state returned by `loadState` when the file is missing or
unparsable (src/state/sync-state.ts, lines 130-133 and 141-144). -/
def freshSyncState (now : String) : SyncStateData :=
  { sessions := [], lastUpdated := now }

/-- Embedding of `loadState` (src/state/sync-state.ts, lines 128-146).
`disk` is the state-file content (`none` when the file is missing), `parse`
models `JSON.parse` (`none` when it throws), `now` the current time string.
Returns the loaded data and whether a corruption warning was logged. -/
def loadState (disk : Option String) (parse : String → Option SyncStateData) (now : String) :
    SyncStateData × Bool :=
  match disk with
  | none => (freshSyncState now, false)
  | some content =>
    match parse content with
    | some data => (data, false)
    | none => (freshSyncState now, true)

/-- External collaborators of the apply phase of `syncSession` (src/sync.ts,
lines 165-291): `convert` models `convertGroupToTrace` (returning the minted
trace id, or `null`), `createBatch` the single batched `createTraces` call,
`updateOne` an individual `updateTrace` call, and `persist` the
`updateSyncedGroups` state write.  Thread-tag side effects are caught and
logged in the source without affecting control flow and are omitted here. -/
structure PublishEnv where
  convert : List ClaudeMessage → Option String
  createBatch : List String → Except String Unit
  updateOne : String → Except String Unit
  persist : List SyncedGroup → Except String Unit

/-- Replacement of the record at `findIndex(sg => sg.traceId === traceId)`
(src/sync.ts, lines 256-264): the first record with that trace id is replaced,
an absent id leaves the list unchanged. -/
def replaceByTraceId : List SyncedGroup → String → SyncedGroup → List SyncedGroup
  | [], _, _ => []
  | sg :: rest, tid, r =>
    if sg.traceId == tid then r :: rest else sg :: replaceByTraceId rest tid r

/-- Update loop of `syncSession` (src/sync.ts, lines 229-267): actions without
a trace id or whose conversion returns `null` are skipped; each remaining
update is submitted individually, a failure aborts the loop and propagates.
Returns the trace ids successfully applied in order, the updated synced-group
list, and the outcome. -/
def runUpdateActions (env : PublishEnv) :
    List GroupAction → List SyncedGroup → List String × List SyncedGroup × Except String Unit
  | [], updated => ([], updated, Except.ok ())
  | a :: rest, updated =>
    match a.traceId with
    | none => runUpdateActions env rest updated
    | some tid =>
      match env.convert a.group with
      | none => runUpdateActions env rest updated
      | some _ =>
        match env.updateOne tid with
        | Except.error e => ([], updated, Except.error e)
        | Except.ok _ =>
          let updated1 := replaceByTraceId updated tid (syncedRecordOf tid a.group)
          let r := runUpdateActions env rest updated1
          (tid :: r.1, r.2.1, r.2.2)

/-- Observable outcome of the apply-and-persist phase of `syncSession`:
the error propagated to the caller (or `ok`), whether the state write was
attempted, the state-file content written (`none` when the file is left as it
was), and the update calls successfully applied. -/
structure ApplyResult where
  outcome : Except String Unit
  persistAttempted : Bool
  stateWritten : Option (List SyncedGroup)
  appliedUpdates : List String
deriving Repr

/-- Embedding of the apply-and-persist phase of `syncSession` (src/sync.ts,
lines 165-291): partition the actions, convert and batch-create the new
groups, apply updates individually, then persist the merged synced-group list.
The whole phase runs in one try block whose catch rethrows, so any publish
failure aborts the remaining actions and skips the state write; the state
write itself is wrapped in an inner try whose catch only warns. -/
def applySync (env : PublishEnv) (existing : List SyncedGroup) (actions : List GroupAction) :
    ApplyResult :=
  let createActions := actions.filter (fun a => a.action == "create")
  let updateActions := actions.filter (fun a => a.action == "update")
  let createGroups := createActions.filterMap
    (fun a => (env.convert a.group).map (fun tid => (a, tid)))
  let afterCreates : Except String (List SyncedGroup) :=
    if createGroups.isEmpty then Except.ok existing
    else
      match env.createBatch (createGroups.map (fun x => x.2)) with
      | Except.error e => Except.error e
      | Except.ok _ =>
        Except.ok (existing ++ createGroups.map (fun x => syncedRecordOf x.2 x.1.group))
  match afterCreates with
  | Except.error e =>
    { outcome := Except.error e, persistAttempted := false, stateWritten := none,
      appliedUpdates := [] }
  | Except.ok updated0 =>
    let r := runUpdateActions env updateActions updated0
    match r.2.2 with
    | Except.error e =>
      { outcome := Except.error e, persistAttempted := false, stateWritten := none,
        appliedUpdates := r.1 }
    | Except.ok _ =>
      match env.persist r.2.1 with
      | Except.ok _ =>
        { outcome := Except.ok (), persistAttempted := true, stateWritten := some r.2.1,
          appliedUpdates := r.1 }
      | Except.error _ =>
        { outcome := Except.ok (), persistAttempted := true, stateWritten := none,
          appliedUpdates := r.1 }

/-- Update actions that the apply phase would submit: those carrying a trace
id and whose conversion succeeds (src/sync.ts, lines 230-237). -/
def plannedUpdates (env : PublishEnv) (actions : List GroupAction) : List String :=
  (actions.filter (fun a => a.action == "update")).filterMap
    (fun a => a.traceId.bind (fun tid => (env.convert a.group).map (fun _ => tid)))

/-- Unfolding equation of `specGroups` on the empty list. -/
theorem specGroups_nil (p : α → Bool) : specGroups p [] = [] := by
  rw [specGroups]

/-- Unfolding equation of `specGroups` on a cons. -/
theorem specGroups_cons (p : α → Bool) (a : α) (rest : List α) :
    specGroups p (a :: rest) =
      (a :: rest.takeWhile (fun x => !p x)) ::
        specGroups p (rest.dropWhile (fun x => !p x)) := by
  rw [specGroups]

/-- Concatenating the spec-side groups gives back the input list. -/
theorem specGroups_flatten (p : α → Bool) (l : List α) : (specGroups p l).flatten = l := by
  match l with
  | [] => simp [specGroups_nil]
  | a :: rest =>
    have ih := specGroups_flatten p (rest.dropWhile fun x => !p x)
    rw [specGroups_cons]
    simp [ih, List.takeWhile_append_dropWhile]
termination_by l.length
decreasing_by
  simp_wf
  have h : (List.dropWhile (fun x => !p x) rest).Sublist rest := List.dropWhile_sublist _
  have h2 := h.length_le
  omega

/-- Every spec-side group is non-empty. -/
theorem specGroups_ne_nil (p : α → Bool) (l : List α) : ∀ g ∈ specGroups p l, g ≠ [] := by
  match l with
  | [] => simp [specGroups_nil]
  | a :: rest =>
    have ih := specGroups_ne_nil p (rest.dropWhile fun x => !p x)
    rw [specGroups_cons]
    intro g hg
    rcases List.mem_cons.mp hg with h | h
    · subst h; exact List.cons_ne_nil _ _
    · exact ih g h
termination_by l.length
decreasing_by
  simp_wf
  have h : (List.dropWhile (fun x => !p x) rest).Sublist rest := List.dropWhile_sublist _
  have h2 := h.length_le
  omega

/-- Running the grouping loop with a non-empty open group: the open group
absorbs the leading non-boundary run of the remaining (summary-filtered)
input, and the rest is grouped as by the spec-side grouping. -/
theorem groupGo_open (msgs : List ClaudeMessage) :
    ∀ (groups : List (List ClaudeMessage)) (current : List ClaudeMessage), current ≠ [] →
      groupGo msgs groups current =
        groups ++
          (current ++ (msgs.filter fun m => !isSummary m).takeWhile (fun m => !isUserText m)) ::
            specGroups isUserText
              ((msgs.filter fun m => !isSummary m).dropWhile (fun m => !isUserText m)) := by
  induction msgs with
  | nil =>
    intro groups current hc
    have he : current.isEmpty = false := by
      cases current with
      | nil => exact absurd rfl hc
      | cons a l => rfl
    simp [groupGo, he, specGroups_nil]
  | cons m rest ih =>
    intro groups current hc
    cases hs : isSummary m with
    | true =>
      simp only [groupGo, hs, if_true, List.filter_cons, Bool.not_true, cond_false]
      simpa using ih groups current hc
    | false =>
      cases hu : isUserText m with
      | true =>
        have he : current.isEmpty = false := by
          cases current with
          | nil => exact absurd rfl hc
          | cons a l => rfl
        simp only [groupGo, hs, hu, he, Bool.false_eq_true, if_false, if_true]
        rw [ih (groups ++ [current]) [m] (List.cons_ne_nil _ _)]
        simp [List.filter_cons, hs, hu, specGroups_cons, List.takeWhile_cons,
          List.dropWhile_cons]
      | false =>
        simp only [groupGo, hs, hu, Bool.false_eq_true, if_false]
        rw [ih groups (current ++ [m]) (by simp)]
        simp [List.filter_cons, hs, hu, List.takeWhile_cons, List.dropWhile_cons]

/-- Running the grouping loop with no open group appends exactly the
spec-side grouping of the summary-filtered input. -/
theorem groupGo_closed (msgs : List ClaudeMessage) :
    ∀ groups, groupGo msgs groups [] =
      groups ++ specGroups isUserText (msgs.filter fun m => !isSummary m) := by
  induction msgs with
  | nil => intro groups; simp [groupGo, specGroups_nil]
  | cons m rest ih =>
    intro groups
    cases hs : isSummary m with
    | true =>
      simp only [groupGo, hs, if_true, List.filter_cons, Bool.not_true, cond_false]
      simpa using ih groups
    | false =>
      cases hu : isUserText m with
      | true =>
        have hstep : groupGo (m :: rest) groups [] = groupGo rest groups [m] := by
          simp [groupGo, hs, hu]
        rw [hstep, groupGo_open rest groups [m] (List.cons_ne_nil _ _)]
        simp [List.filter_cons, hs, hu, specGroups_cons, List.takeWhile_cons,
          List.dropWhile_cons]
      | false =>
        have hstep : groupGo (m :: rest) groups [] = groupGo rest groups [m] := by
          simp [groupGo, hs, hu]
        rw [hstep, groupGo_open rest groups [m] (List.cons_ne_nil _ _)]
        simp [List.filter_cons, hs, hu, specGroups_cons, List.takeWhile_cons,
          List.dropWhile_cons]

/-- Characterization of the grouper: it discards summaries and splits the
rest exactly before each user-text message. -/
theorem groupMessages_eq_specGroups (msgs : List ClaudeMessage) :
    groupMessagesByUserInteraction msgs =
      specGroups isUserText (msgs.filter fun m => !isSummary m) := by
  have h := groupGo_closed msgs []
  simpa [groupMessagesByUserInteraction] using h

/-- C4: the grouping function starts a new group exactly at each message that
is user-authored with plain-text content; every other non-summary message is
appended to the currently open group (the spec-side `specGroups` splitting of
the summary-filtered input), and summary-type entries are discarded and never
appear in any group. -/
theorem grouping_boundary_rule (msgs : List ClaudeMessage) :
    groupMessagesByUserInteraction msgs =
      specGroups isUserText (msgs.filter fun m => !isSummary m) ∧
    ∀ g ∈ groupMessagesByUserInteraction msgs, ∀ m ∈ g, isSummary m = false := by
  refine ⟨groupMessages_eq_specGroups msgs, ?_⟩
  intro g hg m hm
  have hg2 : g ∈ specGroups isUserText (msgs.filter fun m => !isSummary m) := by
    rw [← groupMessages_eq_specGroups msgs]; exact hg
  have hj : m ∈ (specGroups isUserText (msgs.filter fun m => !isSummary m)).flatten :=
    List.mem_flatten.mpr ⟨g, hg2, hm⟩
  rw [specGroups_flatten] at hj
  have := (List.mem_filter.mp hj).2
  simpa using this

/-- C10: the grouping function partitions its input: concatenating the
returned groups in order yields exactly the input with summary entries
removed, and every returned group is non-empty. -/
theorem grouping_partitions_input (msgs : List ClaudeMessage) :
    (groupMessagesByUserInteraction msgs).flatten = msgs.filter (fun m => !isSummary m) ∧
    ∀ g ∈ groupMessagesByUserInteraction msgs, g ≠ [] := by
  constructor
  · rw [groupMessages_eq_specGroups, specGroups_flatten]
  · rw [groupMessages_eq_specGroups]
    exact specGroups_ne_nil _ _

/-- C3: on non-empty current groups the diff loop agrees, group by group and
in order, with the spec-side classification: Create when no prior record
carries the group's anchor id, Update with the prior trace id when the last
message id or the count differs, no action on a full match; prior records
without a current counterpart contribute nothing. -/
theorem analyzeGroupChanges_matches_diff_spec (cur : List (List ClaudeMessage))
    (synced : List SyncedGroup) (h : ∀ g ∈ cur, g ≠ []) :
    analyzeGroupChanges cur synced = cur.filterMap (diffSpecAction synced) := by
  induction cur with
  | nil => rfl
  | cons g rest ih =>
    have hr : ∀ x ∈ rest, x ≠ [] := fun x hx => h x (List.mem_cons_of_mem _ hx)
    match g, h g (List.mem_cons_self _ _) with
    | m :: tail, _ =>
      rw [List.filterMap_cons]
      simp only [analyzeGroupChanges, diffSpecAction]
      cases hfind : synced.find? (fun sg => sg.userMessageUuid == m.uuid) with
      | none => simp [ih hr]
      | some sg =>
        rw [ih hr]
        by_cases hc : (sg.lastMessageUuid != (tail.getLastD m).uuid ||
            sg.messageCount != (m :: tail).length) = true
        · simp at hc
          simp [hc]
        · simp at hc
          simp [hc.1, hc.2]

/-- Witness for the diff characterization: one new group and one previously
synced group that has since grown. -/
theorem analyzeGroupChanges_matches_diff_spec_witness :
    analyzeGroupChanges
        [[⟨"u1", "user", MessageContent.text "a"⟩],
          [⟨"u2", "user", MessageContent.text "b"⟩, ⟨"u3", "assistant", MessageContent.blocks⟩]]
        [⟨"t2", "u2", "u2", 1⟩] =
      [[⟨"u1", "user", MessageContent.text "a"⟩],
        [⟨"u2", "user", MessageContent.text "b"⟩,
          ⟨"u3", "assistant", MessageContent.blocks⟩]].filterMap
        (diffSpecAction [⟨"t2", "u2", "u2", 1⟩]) :=
  analyzeGroupChanges_matches_diff_spec _ _ (by decide)

/-- Anchor id stored in a freshly built synced record is the group's anchor. -/
theorem syncedRecordOf_userMessageUuid (tid : String) (g : List ClaudeMessage) :
    (syncedRecordOf tid g).userMessageUuid = anchorUuid g := by
  cases g <;> rfl

/-- With pairwise-distinct anchors, looking up a group's anchor among the
records of a full sync finds that group's own record. -/
theorem find_recordsAfterSync_self (assign : List ClaudeMessage → String)
    (groups : List (List ClaudeMessage)) :
    ∀ g ∈ groups, (groups.map anchorUuid).Nodup →
      (recordsAfterSync assign groups).find? (fun sg => sg.userMessageUuid == anchorUuid g) =
        some (syncedRecordOf (assign g) g) := by
  induction groups with
  | nil => intro g hg _; exact absurd hg (List.not_mem_nil _)
  | cons g0 rest ih =>
    intro g hg hnd
    rw [List.map_cons] at hnd
    have hnd2 := List.nodup_cons.mp hnd
    rcases List.mem_cons.mp hg with rfl | hmem
    · have hpred : ((syncedRecordOf (assign g) g).userMessageUuid == anchorUuid g) = true := by
        rw [syncedRecordOf_userMessageUuid]
        exact beq_self_eq_true _
      simp only [recordsAfterSync, List.map_cons]
      exact List.find?_cons_of_pos _ hpred
    · have hne : anchorUuid g0 ≠ anchorUuid g := by
        intro he
        exact hnd2.1 (he ▸ List.mem_map_of_mem _ hmem)
      have hpred : ((syncedRecordOf (assign g0) g0).userMessageUuid == anchorUuid g) = false := by
        rw [syncedRecordOf_userMessageUuid]
        exact beq_eq_false_iff_ne.mpr hne
      simp only [recordsAfterSync, List.map_cons]
      rw [List.find?_cons_of_neg _ (by simp [hpred])]
      exact ih g hmem hnd2.2

/-- Diffing groups against records that are each group's own record yields no
actions. -/
theorem analyze_no_action_of_find_self (records : List SyncedGroup)
    (groups : List (List ClaudeMessage)) :
    (∀ g ∈ groups, g ≠ []) →
    (∀ g ∈ groups, ∃ tid,
      records.find? (fun sg => sg.userMessageUuid == anchorUuid g) =
        some (syncedRecordOf tid g)) →
    analyzeGroupChanges groups records = [] := by
  induction groups with
  | nil => intro _ _; rfl
  | cons g rest ih =>
    intro hne hfind
    match g, hne g (List.mem_cons_self _ _) with
    | m :: tail, _ =>
      obtain ⟨tid, hf⟩ := hfind (m :: tail) (List.mem_cons_self _ _)
      have hner : ∀ x ∈ rest, x ≠ [] := fun x hx => hne x (List.mem_cons_of_mem _ hx)
      have hfindr : ∀ x ∈ rest, ∃ tid,
          records.find? (fun sg => sg.userMessageUuid == anchorUuid x) =
            some (syncedRecordOf tid x) :=
        fun x hx => hfind x (List.mem_cons_of_mem _ hx)
      simp only [anchorUuid] at hf
      simp only [analyzeGroupChanges, hf, syncedRecordOf]
      simp [ih hner hfindr]

/-- C5: diffing a list of groups with distinct anchors against the records a
sync of those same groups would store (anchor id, last message id, length)
yields zero actions, so an immediate re-sync performs no creates and no
updates. -/
theorem second_sync_yields_no_actions (groups : List (List ClaudeMessage))
    (assign : List ClaudeMessage → String)
    (h1 : ∀ g ∈ groups, g ≠ [])
    (h2 : (groups.map anchorUuid).Nodup) :
    analyzeGroupChanges groups (recordsAfterSync assign groups) = [] := by
  refine analyze_no_action_of_find_self _ groups h1 (fun g hg => ⟨assign g, ?_⟩)
  exact find_recordsAfterSync_self assign groups g hg h2

/-- Witness for idempotence at a concrete two-group session. -/
theorem second_sync_yields_no_actions_witness :
    analyzeGroupChanges
        [[⟨"u1", "user", MessageContent.text "hello"⟩],
          [⟨"u2", "user", MessageContent.text "again"⟩,
            ⟨"u3", "assistant", MessageContent.blocks⟩]]
        (recordsAfterSync (fun _ => "t0")
          [[⟨"u1", "user", MessageContent.text "hello"⟩],
            [⟨"u2", "user", MessageContent.text "again"⟩,
              ⟨"u3", "assistant", MessageContent.blocks⟩]]) = [] :=
  second_sync_yields_no_actions _ _ (by decide) (by decide)

/-- Diffing against an empty record list creates every non-empty group. -/
theorem analyzeGroupChanges_nil_synced (cur : List (List ClaudeMessage))
    (h : ∀ g ∈ cur, g ≠ []) :
    analyzeGroupChanges cur [] = cur.map (fun g => ⟨"create", g, none⟩) := by
  induction cur with
  | nil => rfl
  | cons g rest ih =>
    match g, h g (List.mem_cons_self _ _) with
    | m :: tail, _ =>
      simp only [analyzeGroupChanges, List.find?_nil, List.map_cons]
      simp [ih (fun x hx => h x (List.mem_cons_of_mem _ hx))]

/-- C2 counterexample: a group already recorded in the state with matching
last id and count is unchanged (the diff against the stored records yields no
actions), yet the force-mode plan emits a Create for it, because force mode
diffs against the empty list rather than the stored groups. -/
theorem forceSync_recreates_unchanged_group :
    analyzeGroupChanges [[⟨"u1", "user", MessageContent.text "hi"⟩]]
        [⟨"t1", "u1", "u1", 1⟩] = [] ∧
    syncPlan true true [⟨"t1", "u1", "u1", 1⟩]
        [[⟨"u1", "user", MessageContent.text "hi"⟩]] =
      some [⟨"create", [⟨"u1", "user", MessageContent.text "hi"⟩], none⟩] := by
  constructor <;> rfl

/-- C2 amended: with force enabled the fingerprint check is bypassed and the
diff is computed against an empty stored-group list, so every (non-empty)
current group produces a Create action — previously synced unchanged groups
are re-created rather than matched by anchor id. -/
theorem syncPlan_force_creates_every_group (needsSyncAns : Bool)
    (stored : List SyncedGroup) (cur : List (List ClaudeMessage))
    (h : ∀ g ∈ cur, g ≠ []) :
    syncPlan true needsSyncAns stored cur =
      some (cur.map (fun g => ⟨"create", g, none⟩)) := by
  simp [syncPlan, analyzeGroupChanges_nil_synced cur h]

/-- Witness for the amended force-mode behavior at a concrete input. -/
theorem syncPlan_force_creates_every_group_witness :
    syncPlan true true [⟨"t9", "u9", "u9", 1⟩]
        [[⟨"u1", "user", MessageContent.text "x"⟩]] =
      some [⟨"create", [⟨"u1", "user", MessageContent.text "x"⟩], none⟩] :=
  syncPlan_force_creates_every_group true [⟨"t9", "u9", "u9", 1⟩] _ (by decide)

/-- Unfolding of one contended iteration of the lock loop: a fresh (non-stale)
foreign lock file makes the open fail, so the attempts counter increments and
the loop sleeps `min(100 * 2 ** attempts, 2000)` ms before retrying. -/
theorem withLockGo_step_contended (a m s : Nat) {α : Type} (op : OpOutcome α)
    (h1 : a < maxRetries) (h2 : s ≤ lockTimeoutMs) :
    withLockGo a ⟨some m, m + s⟩ op =
      ((withLockGo (a + 1) ⟨some m, m + (s + min (100 * 2 ^ (a + 1)) 2000)⟩ op).1,
        min (100 * 2 ^ (a + 1)) 2000 ::
          (withLockGo (a + 1) ⟨some m, m + (s + min (100 * 2 ^ (a + 1)) 2000)⟩ op).2.1,
        (withLockGo (a + 1) ⟨some m, m + (s + min (100 * 2 ^ (a + 1)) 2000)⟩ op).2.2) := by
  have hst : ¬ lockTimeoutMs < s := not_lt.mpr h2
  rw [withLockGo, dif_pos h1]
  simp [cleanStaleLocks, hst, Nat.add_assoc]

/-- Exhausting the retry budget throws the lock-timeout error. -/
theorem withLockGo_exhausted {α : Type} (w : LockWorld) (op : OpOutcome α) :
    withLockGo maxRetries w op = (LockOutcome.lockTimeout, [], w) := by
  rw [withLockGo, dif_neg (by omega)]

/-- C6: against a fresh foreign lock that is never released, every open
attempt fails with EEXIST; the acquirer sleeps the exponential backoff
delays `min(100 * 2 ** attempt, 2000)` (base 100 ms, capped at 2000 ms),
retries `maxRetries = 10` times, and then fails with the lock timeout. -/
theorem lock_contention_backoff_and_timeout (m : Nat) {α : Type} (op : OpOutcome α) :
    withLock ⟨some m, m⟩ op =
      (LockOutcome.lockTimeout,
        (List.range maxRetries).map (fun i => min (100 * 2 ^ (i + 1)) 2000),
        ⟨some m, m + 15000⟩) ∧
    (List.range maxRetries).map (fun i => min (100 * 2 ^ (i + 1)) 2000) =
      [200, 400, 800, 1600, 2000, 2000, 2000, 2000, 2000, 2000] ∧
    ∀ d ∈ (List.range maxRetries).map (fun i => min (100 * 2 ^ (i + 1)) 2000), d ≤ 2000 := by
  refine ⟨?_, by decide, by decide⟩
  have hlt : ∀ k : Nat, k < 10 → k < maxRetries := by
    intro k hk
    simpa [maxRetries] using hk
  have hle : ∀ s : Nat, s ≤ 30000 → s ≤ lockTimeoutMs := by
    intro s hs
    simpa [lockTimeoutMs] using hs
  have e0 := withLockGo_step_contended 0 m 0 op (hlt 0 (by norm_num)) (hle 0 (by norm_num))
  have e1 := withLockGo_step_contended 1 m 200 op (hlt 1 (by norm_num)) (hle 200 (by norm_num))
  have e2 := withLockGo_step_contended 2 m 600 op (hlt 2 (by norm_num)) (hle 600 (by norm_num))
  have e3 := withLockGo_step_contended 3 m 1400 op (hlt 3 (by norm_num)) (hle 1400 (by norm_num))
  have e4 := withLockGo_step_contended 4 m 3000 op (hlt 4 (by norm_num)) (hle 3000 (by norm_num))
  have e5 := withLockGo_step_contended 5 m 5000 op (hlt 5 (by norm_num)) (hle 5000 (by norm_num))
  have e6 := withLockGo_step_contended 6 m 7000 op (hlt 6 (by norm_num)) (hle 7000 (by norm_num))
  have e7 := withLockGo_step_contended 7 m 9000 op (hlt 7 (by norm_num)) (hle 9000 (by norm_num))
  have e8 := withLockGo_step_contended 8 m 11000 op (hlt 8 (by norm_num)) (hle 11000 (by norm_num))
  have e9 := withLockGo_step_contended 9 m 13000 op (hlt 9 (by norm_num)) (hle 13000 (by norm_num))
  have e10 : withLockGo 10 (⟨some m, m + 15000⟩ : LockWorld) op =
      (LockOutcome.lockTimeout, [], ⟨some m, m + 15000⟩) := by
    have := withLockGo_exhausted (⟨some m, m + 15000⟩ : LockWorld) op
    simpa [maxRetries] using this
  norm_num at e0 e1 e2 e3 e4 e5 e6 e7 e8 e9
  rw [withLock]
  rw [show (⟨some m, m⟩ : LockWorld) = ⟨some m, m + 0⟩ from by norm_num] at e0 ⊢
  rw [e0, e1, e2, e3, e4, e5, e6, e7, e8, e9, e10]
  simp [maxRetries]
  decide

/-- C7: a lock file strictly older than the 30 s staleness threshold is
removed by `cleanStaleLocks` and the lock is acquired on the very first open
attempt: the operation runs, no backoff delay is slept, no retry is consumed,
and the lock file is gone afterwards. -/
theorem stale_lock_reclaimed_first_attempt (m n : Nat) {α : Type} (a : α)
    (h : n - m > lockTimeoutMs) :
    withLock ⟨some m, n⟩ (OpOutcome.ok a) = (LockOutcome.ok a, [], ⟨none, n⟩) := by
  rw [withLock, withLockGo, dif_pos (by norm_num [maxRetries])]
  simp [cleanStaleLocks, h]

/-- Witness for stale-lock reclamation: a lock 30001 ms old is reclaimed. -/
theorem stale_lock_reclaimed_first_attempt_witness :
    withLock ⟨some 0, 30001⟩ (OpOutcome.ok (42 : Nat)) =
      (LockOutcome.ok 42, [], ⟨none, 30001⟩) :=
  stale_lock_reclaimed_first_attempt 0 30001 42 (by norm_num [lockTimeoutMs])

/-- C1 evidence: when the critical section raises a non-EEXIST error while
the lock is held, `withLock` propagates the error but the final state still
contains the lock file — the catch block closes the descriptor without
unlinking, so the lock is not released on the error exit path. -/
theorem withLock_error_leaves_lock_file :
    withLock ⟨none, 0⟩ (OpOutcome.raise "EACCES" : OpOutcome Nat) =
      (LockOutcome.opError "EACCES", [], ⟨some 0, 0⟩) := by
  rw [withLock, withLockGo, dif_pos (by norm_num [maxRetries])]
  simp [cleanStaleLocks]

/-- Update actions that the loop would submit decompose into the successfully
applied ones followed by the unapplied remainder. -/
theorem runUpdateActions_applied_decomposition (env : PublishEnv) (acts : List GroupAction) :
    ∀ upd : List SyncedGroup, ∃ tail,
      acts.filterMap
          (fun a => a.traceId.bind (fun tid => (env.convert a.group).map (fun _ => tid))) =
        (runUpdateActions env acts upd).1 ++ tail := by
  induction acts with
  | nil => intro upd; exact ⟨[], rfl⟩
  | cons a rest ih =>
    intro upd
    cases hta : a.traceId with
    | none =>
      obtain ⟨tail, ht⟩ := ih upd
      refine ⟨tail, ?_⟩
      simp [runUpdateActions, List.filterMap_cons, hta, ht]
    | some tid =>
      cases hconv : env.convert a.group with
      | none =>
        obtain ⟨tail, ht⟩ := ih upd
        refine ⟨tail, ?_⟩
        simp [runUpdateActions, List.filterMap_cons, hta, hconv, ht]
      | some tr =>
        cases hupd : env.updateOne tid with
        | error e =>
          refine ⟨tid :: rest.filterMap
            (fun a => a.traceId.bind (fun tid => (env.convert a.group).map (fun _ => tid))), ?_⟩
          simp [runUpdateActions, List.filterMap_cons, hta, hconv, hupd]
        | ok u =>
          obtain ⟨tail, ht⟩ := ih (replaceByTraceId upd tid (syncedRecordOf tid a.group))
          refine ⟨tail, ?_⟩
          simp [runUpdateActions, List.filterMap_cons, hta, hconv, hupd, ht]

/-- Shape of an apply-phase run: either it succeeds, or the state write was
never attempted and the state file is untouched. -/
theorem applySync_error_shape (env : PublishEnv) (existing : List SyncedGroup)
    (actions : List GroupAction) :
    (applySync env existing actions).outcome = Except.ok () ∨
    ((applySync env existing actions).persistAttempted = false ∧
      (applySync env existing actions).stateWritten = none) := by
  simp only [applySync]
  split
  · right; exact ⟨rfl, rfl⟩
  · split
    · right; exact ⟨rfl, rfl⟩
    · split
      · left; rfl
      · left; rfl

/-- The applied updates of an apply-phase run form an order-preserving
initial segment of the planned updates. -/
theorem applySync_applied_decomposition (env : PublishEnv) (existing : List SyncedGroup)
    (actions : List GroupAction) :
    ∃ tail, plannedUpdates env actions =
      (applySync env existing actions).appliedUpdates ++ tail := by
  simp only [applySync, plannedUpdates]
  split
  · exact ⟨_, (List.nil_append _).symm⟩
  · split
    · obtain ⟨tail, ht⟩ := runUpdateActions_applied_decomposition env
        (actions.filter (fun a => a.action == "update")) _
      exact ⟨tail, ht⟩
    · split
      · obtain ⟨tail, ht⟩ := runUpdateActions_applied_decomposition env
          (actions.filter (fun a => a.action == "update")) _
        exact ⟨tail, ht⟩
      · obtain ⟨tail, ht⟩ := runUpdateActions_applied_decomposition env
          (actions.filter (fun a => a.action == "update")) _
        exact ⟨tail, ht⟩

/-- C8: when the apply phase propagates a publish error, the state-file write
was never attempted (the state file is left as it was), and the actions the
run applied are only an initial segment of the planned updates — everything
after the failure stays unapplied. -/
theorem publish_failure_skips_persistence (env : PublishEnv) (existing : List SyncedGroup)
    (actions : List GroupAction) (e : String)
    (h : (applySync env existing actions).outcome = Except.error e) :
    (applySync env existing actions).persistAttempted = false ∧
    (applySync env existing actions).stateWritten = none ∧
    ∃ tail, plannedUpdates env actions =
      (applySync env existing actions).appliedUpdates ++ tail := by
  rcases applySync_error_shape env existing actions with hok | hfields
  · rw [hok] at h
    exact absurd h (by simp)
  · obtain ⟨tail, ht⟩ := applySync_applied_decomposition env existing actions
    exact ⟨hfields.1, hfields.2, tail, ht⟩

/-- Witness for the abort-on-publish-failure behavior: a single update whose
publish call fails. -/
theorem publish_failure_skips_persistence_witness :
    (applySync
        { convert := fun _ => some "tX", createBatch := fun _ => Except.ok (),
          updateOne := fun _ => Except.error "boom", persist := fun _ => Except.ok () }
        [⟨"t1", "u1", "u1", 1⟩]
        [⟨"update", [⟨"u1", "user", MessageContent.text "q"⟩], some "t1"⟩]).persistAttempted =
      false ∧
    (applySync
        { convert := fun _ => some "tX", createBatch := fun _ => Except.ok (),
          updateOne := fun _ => Except.error "boom", persist := fun _ => Except.ok () }
        [⟨"t1", "u1", "u1", 1⟩]
        [⟨"update", [⟨"u1", "user", MessageContent.text "q"⟩], some "t1"⟩]).stateWritten =
      none ∧
    ∃ tail,
      plannedUpdates
          { convert := fun _ => some "tX", createBatch := fun _ => Except.ok (),
            updateOne := fun _ => Except.error "boom", persist := fun _ => Except.ok () }
          [⟨"update", [⟨"u1", "user", MessageContent.text "q"⟩], some "t1"⟩] =
        (applySync
            { convert := fun _ => some "tX", createBatch := fun _ => Except.ok (),
              updateOne := fun _ => Except.error "boom", persist := fun _ => Except.ok () }
            [⟨"t1", "u1", "u1", 1⟩]
            [⟨"update", [⟨"u1", "user", MessageContent.text "q"⟩],
              some "t1"⟩]).appliedUpdates ++ tail :=
  publish_failure_skips_persistence
    { convert := fun _ => some "tX", createBatch := fun _ => Except.ok (),
      updateOne := fun _ => Except.error "boom", persist := fun _ => Except.ok () }
    [⟨"t1", "u1", "u1", 1⟩]
    [⟨"update", [⟨"u1", "user", MessageContent.text "q"⟩], some "t1"⟩] "boom" rfl

/-- C9: loading the persisted state always returns a value: a missing file
yields the fresh empty structure (no sessions) without a warning, unparsable
content yields the fresh empty structure with a corruption warning, and
parsable content is returned as parsed. -/
theorem loadState_never_fails (parse : String → Option SyncStateData) (now : String) :
    (loadState none parse now = (freshSyncState now, false) ∧
      (freshSyncState now).sessions = []) ∧
    (∀ s, parse s = none → loadState (some s) parse now = (freshSyncState now, true)) ∧
    (∀ s d, parse s = some d → loadState (some s) parse now = (d, false)) := by
  refine ⟨⟨rfl, rfl⟩, ?_, ?_⟩
  · intro s hs
    simp [loadState, hs]
  · intro s d hs
    simp [loadState, hs]

/-- Witness for state loading: corrupt content recovers to the fresh empty
state with a warning. -/
theorem loadState_never_fails_witness :
    loadState (some "garbage") (fun _ => none) "t0" =
      (freshSyncState "t0", true) :=
  (loadState_never_fails (fun _ => none) "t0").2.1 "garbage" rfl

end Ccsync
